import Mathlib

/-!
Verification of the document-template matching and extraction-scoring engine
of the extend-ai-document-processor plugin.

The Python modules `prefill/scoring.py`, `prefill/extraction.py`, `match.py`
and `categorize.py` are shallowly embedded below.  Python strings are
`List Char`; Python floats are embedded as rationals; loosely typed JSON-ish
values are explicit inductive types.  The clinical-record store and the
external HTTP API are parameters (lists of records, and an outcome oracle
indexed by attempt number).
-/

/- Batteries marks the arithmetic of `Rat` irreducible; restore reducibility so
that concrete score computations can be settled by `decide`. -/
attribute [local semireducible] Rat.add Rat.sub Rat.mul Rat.inv Rat.ofScientific

namespace ExtendAI

/-- Python strings are modelled as lists of characters. -/
abbrev Str := List Char

/-- Build a modelled Python string from a Lean string literal. -/
def str (s : String) : Str := s.data

/-- The whitespace characters stripped by Python `str.strip()`
(ASCII fragment; the inputs of this development are ASCII). -/
def pyIsSpace (c : Char) : Bool :=
  c = ' ' || c = '\t' || c = '\n' || c = '\r' || c = '\x0b' || c = '\x0c'

/-- `str.strip()`: drop leading and trailing whitespace. -/
def strip (s : Str) : Str :=
  (s.dropWhile pyIsSpace).rdropWhile pyIsSpace

/-- `str.lower()` (ASCII fragment, matching `Char.toLower`). -/
def lowerStr (s : Str) : Str := s.map Char.toLower

/-- `str.upper()` (ASCII fragment, matching `Char.toUpper`). -/
def upperStr (s : Str) : Str := s.map Char.toUpper

/-- Truthiness of an optional string: Python treats `None` and `""` as falsy. -/
def truthyS : Option Str → Bool
  | none => false
  | some s => !s.isEmpty

/-- The delimiters of `re.split(r"[,;\n]+", value)` in `_to_list`. -/
def isDelim (c : Char) : Bool :=
  c = ',' || c = ';' || c = '\n'

/-- Split on single delimiter characters.  `re.split(r"[,;\n]+", s)` collapses
runs of delimiters, producing fewer empty pieces; since `_to_list` immediately
drops every piece that strips to empty, splitting on single delimiters yields
the same retained pieces. -/
def splitDelim : Str → List Str
  | [] => [[]]
  | c :: rest =>
    let r := splitDelim rest
    if isDelim c then [] :: r
    else
      match r with
      | [] => [[c]]
      | p :: ps => (c :: p) :: ps

/-- Helper for `splitWs`: `acc` is the current word, reversed. -/
def splitWsAux : Str → Str → List Str
  | [], acc => if acc.isEmpty then [] else [acc.reverse]
  | c :: rest, acc =>
    if pyIsSpace c then
      if acc.isEmpty then splitWsAux rest [] else acc.reverse :: splitWsAux rest []
    else splitWsAux rest (c :: acc)

/-- `str.split()` with no arguments: split on whitespace runs, no empty pieces. -/
def splitWs (s : Str) : List Str := splitWsAux s []

/-- A loosely typed Python value as consumed by `_to_list`:
`None`, a string, a list, or any other scalar.  A non-`None`, non-string,
non-list scalar is represented by the string `str(value)` produces for it. -/
inductive PyVal where
  | pynone
  | pystr (s : Str)
  | pylist (items : List PyVal)
  | scalar (rp : Str)

mutual

/-- `_to_list` from `prefill/scoring.py`: normalize a value to a flat list of
trimmed, non-empty string tokens. -/
def toList : PyVal → List Str
  | .pynone => []
  | .pystr s => ((splitDelim s).map strip).filter (fun p => !p.isEmpty)
  | .pylist items => toListMany items
  | .scalar rp => [rp]

/-- The list branch of `_to_list`: flatten each element in order. -/
def toListMany : List PyVal → List Str
  | [] => []
  | v :: vs => toList v ++ toListMany vs

end

/-- `is_valid_code` from `prefill/scoring.py`.  The Python function returns a
truthy/falsy value; this is its boolean content (the tests apply `bool()`). -/
def isValidCode (code : Str) : Bool :=
  if code.isEmpty then false
  else
    let stripped := upperStr (strip code)
    !stripped.isEmpty &&
      !(stripped == str "N/A" || stripped == str "NA" || stripped == str "NONE")

/-! ## Constants (`constants.py`) -/

/-- `SCORE_THRESHOLD = 0.3`. -/
def SCORE_THRESHOLD : ℚ := 3 / 10

/-- `GAP_FILL_THRESHOLD = 0.05`. -/
def GAP_FILL_THRESHOLD : ℚ := 1 / 20

/-- `MAX_FIELDS = 120`. -/
def MAX_FIELDS : ℕ := 120

/-- `KEYWORD_BONUS = 0.05`. -/
def KEYWORD_BONUS : ℚ := 1 / 20

/-- `MAX_RETRIES = 2`. -/
def MAX_RETRIES : ℕ := 2

/-! ## Template scoring (`prefill/scoring.py`)

`score_templates` queries the template-field table for fields whose code is in
the extracted code set and hands the resulting row list to
`_build_code_template_map` / `_score_candidates`.  The row list is the
parameter `fields` below; each row carries the field's code, the owning
template's id, and the `select_related` template row (name and
`search_keywords`, the only attributes read). -/

/-- One row of the `field_model` queryset consumed by `_score_candidates`. -/
structure TField where
  code : Str
  tid : ℕ
  label : Str
  rtName : Str
  rtKw : Str
deriving DecidableEq, Repr

/-- The keys of the `code_templates` dict built by `_build_code_template_map`:
the distinct valid codes among the matched fields. -/
def codesOf (fields : List TField) : Finset Str :=
  ((fields.filter (fun f => isValidCode f.code)).map (fun f => f.code)).toFinset

/-- `code_templates[c]`: the set of template ids having a valid field with
code `c`. -/
def codeTemplates (fields : List TField) (c : Str) : Finset ℕ :=
  ((fields.filter (fun f => f.code == c && isValidCode f.code)).map
    (fun f => f.tid)).toFinset

/-- `weights[c] = 1.0 / len(code_templates[c])`. -/
def weight (fields : List TField) (c : Str) : ℚ :=
  1 / (codeTemplates fields c).card

/-- `total_weight = sum(weights.values())`. -/
def totalWeight (fields : List TField) : ℚ :=
  ∑ c ∈ codesOf fields, weight fields c

/-- The fields the `_score_candidates` loop counts for template `tid`:
those whose code is a key of `weights`, in list order.  One list entry per
queryset row — a duplicated (code, template) pair is counted twice. -/
def matchedFields (fields : List TField) (tid : ℕ) : List TField :=
  fields.filter (fun f => decide (f.code ∈ codesOf fields) && f.tid == tid)

/-- `scores[tid]`: the accumulated weight sum for template `tid`. -/
def rawScore (fields : List TField) (tid : ℕ) : ℚ :=
  ((matchedFields fields tid).map (fun f => weight fields f.code)).sum

/-- `template_codes[tid]`: the set of codes `_score_candidates` records for
template `tid`. -/
def matchedCodes (fields : List TField) (tid : ℕ) : Finset Str :=
  ((matchedFields fields tid).map (fun f => f.code)).toFinset

/-- `template_refs[tid]`: set by `setdefault` from the first counted field. -/
def templateRef (fields : List TField) (tid : ℕ) : Option TField :=
  (matchedFields fields tid).head?

/-- `_keyword_bonus`: `KEYWORD_BONUS` per keyword found (case-insensitively)
inside `f"{template.name} {search_keywords}"`. -/
def keywordBonus (nm kws : Str) (keywords : List Str) : ℚ :=
  if keywords.isEmpty then 0
  else
    let haystack := lowerStr (nm ++ [' '] ++ kws)
    KEYWORD_BONUS * ((keywords.filter (fun kw => decide (lowerStr kw <:+: haystack))).length : ℚ)

/-- The keyword bonus `_score_candidates` grants to template `tid`. -/
def bonusFor (fields : List TField) (keywords : List Str) (tid : ℕ) : ℚ :=
  match templateRef fields tid with
  | some f => keywordBonus f.rtName f.rtKw keywords
  | none => 0

/-- `final_score = min(1.0, (score / total_weight) + bonus)`. -/
def finalScore (fields : List TField) (keywords : List Str) (tid : ℕ) : ℚ :=
  min 1 (rawScore fields tid / totalWeight fields + bonusFor fields keywords tid)

/-- The keys of the `scores` dict in first-occurrence (insertion) order. -/
def tidOrder (fields : List TField) : List ℕ :=
  ((fields.filter (fun f => decide (f.code ∈ codesOf fields))).map
    (fun f => f.tid)).eraseDups

/-- A scoring result row.  The source stores `codes` as a sorted list of the
matched-code set; it is kept as the `Finset` here (the final sort key only
reads its length, which equals the card). -/
structure Candidate where
  id : ℕ
  name : Str
  score : ℚ
  codes : Finset Str
deriving DecidableEq

/-- Stable insertion: place `x` after every earlier element `y` with
`lt y x`, before the first other one.  Sorting with it from the right is
stable, like Python's `sorted`. -/
def insertBy (lt : α → α → Bool) (x : α) : List α → List α
  | [] => [x]
  | y :: ys => if lt y x then y :: insertBy lt x ys else x :: y :: ys

/-- Stable sort by a strict comparison, matching Python `sorted`. -/
def sortBy (lt : α → α → Bool) : List α → List α
  | [] => []
  | x :: xs => insertBy lt x (sortBy lt xs)

/-- Strict descending comparison on `(score, len(codes))`:
`results.sort(key=lambda x: (x["score"], len(x["codes"])), reverse=True)`. -/
def candLt (a b : Candidate) : Bool :=
  b.score < a.score || (b.score == a.score && b.codes.card < a.codes.card)

/-- `_score_candidates`: one result row per scored template id, sorted
descending by (score, code count). -/
def scoreCandidates (fields : List TField) (keywords : List Str) : List Candidate :=
  sortBy candLt ((tidOrder fields).map (fun tid =>
    { id := tid
      name := ((templateRef fields tid).map (fun f => f.rtName)).getD []
      score := finalScore fields keywords tid
      codes := matchedCodes fields tid }))


/-! ## Entity matching (`match.py`)

The clinical store is a parameter: a list of patient records and a list of
staff records, in the store's iteration order.  `Model.objects.filter(...)`
keeps the matching records in order; `.first()` is the head. -/

/-- The projection of a `Patient` record used by `find_patient`. -/
structure PatientRec where
  mrn : Str
  firstName : Str
  lastName : Str
  birthDate : Str
deriving DecidableEq, Repr

/-- The projection of a `Staff` record used by `find_reviewer`. -/
structure StaffRec where
  npi : Str
  firstName : Str
  lastName : Str
deriving DecidableEq, Repr

/-- `PatientMatch`: `found` is `patient is not None`. -/
structure PatientMatch where
  patient : Option PatientRec
  error : Option Str
deriving DecidableEq, Repr

/-- `PatientMatch.found`. -/
def PatientMatch.found (m : PatientMatch) : Bool := m.patient.isSome

/-- `ReviewerMatch`: it has no error field; `found` is `reviewer is not None`. -/
structure ReviewerMatch where
  reviewer : Option StaffRec
  autoAssigned : Bool
deriving DecidableEq, Repr

/-- `ReviewerMatch.found`. -/
def ReviewerMatch.found (m : ReviewerMatch) : Bool := m.reviewer.isSome

/-- The identity fields of `DocumentExtraction` used by the entity matcher. -/
structure ExtractionIdent where
  patientId : Option Str
  patientFirstName : Option Str
  patientLastName : Option Str
  patientName : Option Str
  dateOfBirth : Option Str
  practitionerNpi : Option Str
  practitionerFirstName : Option Str
  practitionerLastName : Option Str
  practitionerName : Option Str
deriving DecidableEq, Repr

/-- An `ExtractionIdent` with every field `None`. -/
def emptyIdent : ExtractionIdent :=
  ⟨none, none, none, none, none, none, none, none, none⟩

/-- Python `a or b` where `a` is an optional string and `b` a string. -/
def pyOrS (a : Option Str) (b : Str) : Option Str :=
  if truthyS a then a else some b

/-- `_parse_full_name`: explicit first/last fields win; otherwise a combined
name splits into first token / last token. -/
def parseFullName (first last full : Option Str) : Option Str × Option Str :=
  if truthyS first && truthyS last then (first, last)
  else if truthyS full then
    let parts := splitWs (strip (full.getD []))
    if 2 ≤ parts.length then
      (pyOrS first (parts.headD []), pyOrS last ((parts.getLast?).getD []))
    else if parts.length = 1 then
      (pyOrS first (parts.headD []), last)
    else (first, last)
  else (first, last)

/-- Django `first_name__iexact` / `last_name__iexact`: case-insensitive equality. -/
def ieq (a b : Str) : Bool := lowerStr a == lowerStr b

/-- The name-only tier of `find_patient`. -/
def findPatientByNameOnly (db : List PatientRec) (first last : Str) : PatientMatch :=
  match db.filter (fun p => ieq p.firstName first && ieq p.lastName last) with
  | [p] => ⟨some p, none⟩
  | [] => ⟨none, none⟩
  | _ => ⟨none, some (str "Multiple patients match name")⟩

/-- The name tiers of `find_patient` (name + DOB, then name only),
entered when the MRN tier yields no hit. -/
def findPatientFromName (db : List PatientRec) (ex : ExtractionIdent) : PatientMatch :=
  let pr := parseFullName ex.patientFirstName ex.patientLastName ex.patientName
  if truthyS pr.1 && truthyS pr.2 then
    let first := pr.1.getD []
    let last := pr.2.getD []
    if truthyS ex.dateOfBirth then
      match db.filter (fun p => ieq p.firstName first && ieq p.lastName last &&
          p.birthDate == ex.dateOfBirth.getD []) with
      | [p] => ⟨some p, none⟩
      | [] => findPatientByNameOnly db first last
      | _ => ⟨none, some (str "Multiple patients match name + DOB")⟩
    else findPatientByNameOnly db first last
  else ⟨none, none⟩

/-- `find_patient`: MRN tier, then the name tiers. -/
def findPatient (db : List PatientRec) (ex : ExtractionIdent) : PatientMatch :=
  if truthyS ex.patientId then
    match db.filter (fun p => p.mrn == ex.patientId.getD []) with
    | [p] => ⟨some p, none⟩
    | [] => findPatientFromName db ex
    | _ => ⟨none, some (str "Multiple patients match MRN")⟩
  else findPatientFromName db ex

/-- The auto-assignment fallback of `find_reviewer`: the designated
"Canvas Bot" staff record if present, else the first staff record. -/
def autoAssign (db : List StaffRec) : ReviewerMatch :=
  let bot := (db.filter (fun s => ieq s.firstName (str "Canvas") &&
    ieq s.lastName (str "Bot"))).head?
  match bot with
  | some d => ⟨some d, true⟩
  | none =>
    match db.head? with
    | some d => ⟨some d, true⟩
    | none => ⟨none, false⟩

/-- The name tier of `find_reviewer`; anything but a unique hit proceeds to
auto-assignment. -/
def findReviewerFromName (db : List StaffRec) (ex : ExtractionIdent) : ReviewerMatch :=
  let pr := parseFullName ex.practitionerFirstName ex.practitionerLastName ex.practitionerName
  if truthyS pr.1 && truthyS pr.2 then
    match db.filter (fun s => ieq s.firstName (pr.1.getD []) &&
        ieq s.lastName (pr.2.getD [])) with
    | [s] => ⟨some s, false⟩
    | _ => autoAssign db
  else autoAssign db

/-- `find_reviewer`: NPI tier, then name tier, then auto-assignment.  Note that
a non-unique NPI hit (zero or several) silently proceeds to the next tier. -/
def findReviewer (db : List StaffRec) (ex : ExtractionIdent) : ReviewerMatch :=
  if truthyS ex.practitionerNpi then
    match db.filter (fun s => s.npi == ex.practitionerNpi.getD []) with
    | [s] => ⟨some s, false⟩
    | _ => findReviewerFromName db ex
  else findReviewerFromName db ex

/-! ## Categorization driver (`categorize.py`)

The external API is a parameter: an oracle mapping the attempt number to the
outcome of that attempt (a request-level exception, or a response).  A
response is modelled in parsed form: its status code and the pieces of its
JSON body that the driver reads. -/

/-- A JSON-ish value as returned in extraction payloads.  A scalar other than
`null`/string carries the string `str(value)` produces for it; a dict also
carries its `str(value)` rendering (used only when it has no `"value"` key). -/
inductive JVal where
  | jnull
  | jstr (s : Str)
  | jlist (items : List JVal)
  | jdict (entries : List (Str × JVal)) (rp : Str)
  | jother (rp : Str)

/-- A per-field confidence value found under `ocrConfidence`.  `numv` covers
Python ints/floats/bools (`isinstance(conf, (int, float))`); `other` stands
for a falsy non-numeric value (a truthy non-numeric one would make
`0 <= conf <= 1` raise and is outside the modelled inputs). -/
inductive ConfVal where
  | numv (q : ℚ)
  | other
deriving DecidableEq, Repr

/-- One value of the per-field metadata dict: either not a dict (skipped), or
a dict with an optional `ocrConfidence` entry. -/
inductive FieldMeta where
  | notDict
  | fdict (ocr : Option ConfVal)
deriving DecidableEq, Repr

/-- The metadata object: a dict from field key to field metadata. -/
abbrev Metadata := List (Str × FieldMeta)

/-- Dict lookup on an association list (dict keys are unique). -/
def lookupAssoc (k : Str) : List (Str × β) → Option β
  | [] => none
  | kv :: rest => if kv.1 == k then some kv.2 else lookupAssoc k rest

/-- A parsed API response: the status code and the parts of the JSON body the
driver reads (`requestId`, `code`, `message`, and
`processorRun.output.value` / `processorRun.output.metadata`). -/
structure Response where
  status : ℕ
  requestId : Option Str
  errCode : Option Str
  errMessage : Option Str
  value : List (Str × JVal)
  metadata : Option Metadata

/-- The outcome of one HTTP POST attempt. -/
inductive ApiOutcome where
  | exc
  | resp (r : Response)

/-- `response.ok` (requests semantics): status below 400. -/
def respOk (r : Response) : Bool := r.status < 400

/-- A 4xx status. -/
def is4xx (r : Response) : Bool := 400 ≤ r.status && r.status < 500

/-- An attempt outcome the retry loop retries on: an exception, or a response
that is neither ok nor 4xx (i.e. a 5xx). -/
def retryable : ApiOutcome → Bool
  | .exc => true
  | .resp r => !(respOk r || is4xx r)

/-- The retry loop of `_call_api`.  `attempt` is the current attempt index and
`rem` counts the iterations still available including the current one; the
loop starts at `callApiAux oracle 0 (MAX_RETRIES + 1)`.  Besides the response
it returns the list of `time.sleep` delays taken, in order (the loop sleeps
`attempt + 1` before retrying, and never after the final attempt). -/
def callApiAux (oracle : ℕ → ApiOutcome) : ℕ → ℕ → Option Response × List ℕ
  | _, 0 => (none, [])
  | attempt, rem + 1 =>
    match oracle attempt with
    | .resp r =>
      if respOk r || is4xx r then (some r, [])
      else
        match rem with
        | 0 => (none, [])
        | _ + 1 =>
          let rs := callApiAux oracle (attempt + 1) rem
          (rs.1, (attempt + 1) :: rs.2)
    | .exc =>
      match rem with
      | 0 => (none, [])
      | _ + 1 =>
        let rs := callApiAux oracle (attempt + 1) rem
        (rs.1, (attempt + 1) :: rs.2)

/-- `_call_api`: at most `MAX_RETRIES + 1` attempts. -/
def callApi (oracle : ℕ → ApiOutcome) : Option Response × List ℕ :=
  callApiAux oracle 0 (MAX_RETRIES + 1)

/-- Decimal rendering of a natural number. -/
def natToStr (n : ℕ) : Str := Nat.toDigits 10 n

/-- Decimal rendering of an integer. -/
def intToStr (z : ℤ) : Str :=
  if z < 0 then '-' :: natToStr z.natAbs else natToStr z.toNat

/-- `_format_error`: `"Extend.ai: status=... | code=... | <message> | requestId=..."`,
with the optional parts present only when truthy. -/
def formatError (r : Response) : Str :=
  let parts : List Str :=
    [str "status=" ++ natToStr r.status] ++
    (if truthyS r.errCode then [str "code=" ++ r.errCode.getD []] else []) ++
    (if truthyS r.errMessage then [r.errMessage.getD []] else []) ++
    (if truthyS r.requestId then [str "requestId=" ++ r.requestId.getD []] else [])
  str "Extend.ai: " ++ List.intercalate (str " | ") parts

/-- Lower-case alphanumeric test used by `_slugify` after `.lower()`. -/
def isAlnumLower (c : Char) : Bool :=
  ('a' ≤ c && c ≤ 'z') || ('0' ≤ c && c ≤ '9')

/-- Helper for `collapseRuns`: `inRun` records whether the previous character
already belonged to a non-alphanumeric run. -/
def collapseRunsAux : Str → Bool → Str
  | [], _ => []
  | c :: rest, inRun =>
    if isAlnumLower c then c :: collapseRunsAux rest false
    else if inRun then collapseRunsAux rest true
    else '_' :: collapseRunsAux rest true

/-- `re.sub(r"[^a-z0-9]+", "_", s)`: collapse each run of non-alphanumeric
characters into a single underscore. -/
def collapseRuns (s : Str) : Str := collapseRunsAux s false

/-- `.strip("_")`. -/
def stripUnderscores (s : Str) : Str :=
  (s.dropWhile (fun c => c == '_')).rdropWhile (fun c => c == '_')

/-- `_slugify`: strip, lower, collapse non-alphanumeric runs, trim underscores. -/
def slugify (s : Str) : Str :=
  stripUnderscores (collapseRuns (lowerStr (strip s)))

/-- A locally configured document type; only its `name` is read here, `did`
stands for the rest of the dict. -/
structure DocType where
  did : ℕ
  name : Option Str
deriving DecidableEq, Repr

/-- `_build_slug_map`: slug → document type, first-seen wins on collision. -/
def buildSlugMap (types : List DocType) : List (Str × DocType) :=
  types.foldl (fun acc dt =>
    match dt.name with
    | some nm =>
      if nm.isEmpty then acc
      else
        let slug := slugify nm
        if (lookupAssoc slug acc).isSome then acc else acc ++ [(slug, dt)]
    | none => acc) []

/-- The document-type slug of a parsed extraction:
`extraction.document_type or extraction_raw.get("document_type")`, which is the
`document_type` entry when it is a string (a non-string entry can never equal a
slug key, so the subsequent lookup yields `None` either way). -/
def docSlugOf (value : List (Str × JVal)) : Option Str :=
  match lookupAssoc (str "document_type") value with
  | some (.jstr s) => some s
  | _ => none

/-- `_extract_min_confidence` helper: the numeric `ocrConfidence` values of the
dict-valued metadata fields, in order. -/
def confScores (m : Metadata) : List ℚ :=
  m.filterMap (fun kv =>
    match kv.2 with
    | .fdict (some (.numv q)) => some q
    | _ => none)

/-- Python `min` over a non-empty list. -/
def listMin : List ℚ → Option ℚ
  | [] => none
  | x :: xs => some (xs.foldl min x)

/-- `_extract_min_confidence`: the minimum numeric per-field `ocrConfidence`,
or `None` when the metadata is falsy or has no numeric confidence. -/
def extractMinConfidence (md : Option Metadata) : Option ℚ :=
  match md with
  | none => none
  | some m => if m.isEmpty then none else listMin (confScores m)

/-- `CategorizationResult` (the dataclass of `models.py`). -/
structure CategorizationResult where
  documentType : Option DocType
  extraction : List (Str × JVal)
  metadata : Option Metadata
  confidence : Option ℚ
  error : Option Str

/-- `CategorizationResult.ok`: `error is None`. -/
def CategorizationResult.ok (r : CategorizationResult) : Bool := r.error.isNone

/-- An all-default `CategorizationResult` carrying only an error. -/
def errResult (e : Str) : CategorizationResult :=
  ⟨none, [], none, none, some e⟩

/-- `categorize_document`.  The slug-keyed schema sent to the API only shapes
the oracle's answers and carries no information used afterwards. -/
def categorizeDocument (fileUrl : Str) (availableTypes : List DocType)
    (oracle : ℕ → ApiOutcome) : CategorizationResult :=
  if fileUrl.isEmpty then errResult (str "Missing file URL")
  else
    let slugMap := buildSlugMap availableTypes
    match (callApi oracle).1 with
    | none => errResult (str "API request failed after retries")
    | some r =>
      if !respOk r then errResult (formatError r)
      else
        { documentType := (docSlugOf r.value).bind (fun s => lookupAssoc s slugMap)
          extraction := r.value
          metadata := r.metadata
          confidence := extractMinConfidence r.metadata
          error := none }

/-! ## Field extraction and prefill building (`prefill/extraction.py`) -/

/-- `extract_with_schema`: returns `(extraction, metadata, error)`.  The
`schema` argument shapes the real API call; here the API is the oracle. -/
def extractWithSchema (fileUrl : Str) (oracle : ℕ → ApiOutcome) :
    Option (List (Str × JVal)) × Option Metadata × Option Str :=
  if fileUrl.isEmpty then (none, none, some (str "Missing file URL"))
  else
    match (callApi oracle).1 with
    | none => (none, none, some (str "API request failed after retries"))
    | some r =>
      if !respOk r then (none, none, some (formatError r))
      else (some r.value, r.metadata, none)

mutual

/-- `_normalize_value`: flatten a raw extraction value into a display string,
or `None` when it is empty. -/
def normalizeValue : JVal → Option Str
  | .jnull => none
  | .jlist items =>
    let parts := normalizeMany items
    if parts.isEmpty then none else some (List.intercalate (str ", ") parts)
  | .jdict entries rp => normalizeDict entries rp
  | .jstr s => let t := strip s; if t.isEmpty then none else some t
  | .jother rp => let t := strip rp; if t.isEmpty then none else some t

/-- The list branch of `_normalize_value`: normalize each element, keep the
non-empty results in order. -/
def normalizeMany : List JVal → List Str
  | [] => []
  | v :: vs =>
    match normalizeValue v with
    | some s => s :: normalizeMany vs
    | none => normalizeMany vs

/-- The dict branch of `_normalize_value`: recurse into the `"value"` entry if
present, else fall back to `str(value).strip()` of the dict itself. -/
def normalizeDict : List (Str × JVal) → Str → Option Str
  | [], rp => let t := strip rp; if t.isEmpty then none else some t
  | kv :: rest, rp =>
    if kv.1 == str "value" then normalizeValue kv.2 else normalizeDict rest rp

end

/-- One row of the `field_model` queryset consumed by the extraction
orchestrator (`code`, `label`, `units`, `sequence`). -/
structure FieldRec where
  code : Option Str
  label : Str
  units : Option Str
  sequence : ℤ
deriving DecidableEq, Repr

/-- `_field_key`: a valid code (stripped), else a non-blank label (stripped). -/
def fieldKey (f : FieldRec) : Option Str :=
  match f.code with
  | some c =>
    if isValidCode c then some (strip c)
    else if (strip f.label).isEmpty then none else some (strip f.label)
  | none => if (strip f.label).isEmpty then none else some (strip f.label)

/-- The sort key order of `_build_schema`:
`(code not in preferred_codes, sequence)` ascending, `False < True`. -/
def schemaKeyLt (preferred : Finset Str) (f g : FieldRec) : Bool :=
  let pf : Bool := match f.code with | some c => decide (c ∈ preferred) | none => false
  let pg : Bool := match g.code with | some c => decide (c ∈ preferred) | none => false
  (pf && !pg) || (pf == pg && f.sequence < g.sequence)

/-- The description string of one schema property. -/
def fieldDesc (f : FieldRec) (key : Str) : Str :=
  let label := if f.label.isEmpty then key else f.label
  let parts : List Str :=
    (match f.code with
     | some c => if c.isEmpty then [] else [str "code=" ++ c]
     | none => []) ++
    (match f.units with
     | some u => if u.isEmpty then [] else [str "units=" ++ u]
     | none => [])
  if parts.isEmpty then label
  else label ++ str " (" ++ List.intercalate (str "; ") parts ++ str ")"

/-- The property list and key map accumulated by `_build_schema`; `seen`
carries the keys already present. -/
def schemaEntries : List FieldRec → List Str → List (Str × Str) × List (Str × FieldRec)
  | [], _ => ([], [])
  | f :: rest, seen =>
    match fieldKey f with
    | none => schemaEntries rest seen
    | some k =>
      if k ∈ seen then schemaEntries rest seen
      else
        let pk := schemaEntries rest (k :: seen)
        ((k, fieldDesc f k) :: pk.1, (k, f) :: pk.2)

/-- `_build_schema`: stable-sort the fields (preferred codes first, then
native sequence), cap at `MAX_FIELDS`, and collect unique keys.  Only the
property list of the built schema matters to the model. -/
def buildSchema (fields : List FieldRec) (preferred : Finset Str) :
    List (Str × Str) × List (Str × FieldRec) :=
  schemaEntries ((sortBy (schemaKeyLt preferred) fields).take MAX_FIELDS) []

/-- Python `round` (banker's rounding: half to even). -/
def pyRound (q : ℚ) : ℤ :=
  let f := ⌊q⌋
  let r := q - f
  if r < 1 / 2 then f
  else if 1 / 2 < r then f + 1
  else if f % 2 = 0 then f else f + 1

/-- A prefill field note (the `annotations` entries of the source). -/
structure Badge where
  text : Str
  color : Str
deriving DecidableEq, Repr

/-- The confidence text `f"AI {round(conf * 100)}%"`. -/
def confText (q : ℚ) : Str :=
  str "AI " ++ intToStr (pyRound (q * 100)) ++ str "%"

/-- `AnnotationColor.CONFIDENCE`. -/
def confColor : Str := str "#00AA00"

/-- One prefill field payload: `{value, unit?, annotations?}` (`badges` models
the `annotations` key). -/
structure Payload where
  value : Str
  unit : Option Str
  badges : Option (List Badge)
deriving DecidableEq, Repr

/-- The badge list a confidence produces: present when the confidence is a
number in `[0, 1]`. -/
def badgeFromConf : Option ℚ → Option (List Badge)
  | none => none
  | some q => if 0 ≤ q ∧ q ≤ 1 then some [⟨confText q, confColor⟩] else none

/-- The per-item body of `_build_prefill_fields`: `None` when the value
normalizes to nothing, else the payload for this key. -/
def prefillField (metadata : Option Metadata) (keyMap : List (Str × FieldRec))
    (fallbackConf : Option ℚ) (key : Str) (raw : JVal) : Option Payload :=
  match normalizeValue raw with
  | none => none
  | some v =>
    let fieldO := lookupAssoc key keyMap
    let unitO : Option Str :=
      match fieldO with
      | some f =>
        match f.units with
        | some u => if u.isEmpty then none else some u
        | none => none
      | none => none
    let confMeta : Option ConfVal :=
      match metadata with
      | some md =>
        match lookupAssoc key md with
        | some (.fdict o) => o
        | _ => none
      | none => none
    -- `conf = conf or fallback_confidence`: `None`, `0` and falsy non-numbers
    -- are replaced by the document-level fallback.
    let confq : Option ℚ :=
      match confMeta with
      | some (.numv q) => if q = 0 then fallbackConf else some q
      | some .other => fallbackConf
      | none => fallbackConf
    some ⟨v, unitO, badgeFromConf confq⟩

/-- `_build_prefill_fields`: one payload per extraction item whose value
normalizes to a non-empty string (extraction dict keys are unique). -/
def buildPrefillFields (extraction : Option (List (Str × JVal)))
    (metadata : Option Metadata) (keyMap : List (Str × FieldRec))
    (fallbackConf : Option ℚ) : List (Str × Payload) :=
  match extraction with
  | none => []
  | some ext => ext.filterMap (fun kv =>
      (prefillField metadata keyMap fallbackConf kv.1 kv.2).map (fun p => (kv.1, p)))

/-- One element of the list returned by `extract_fields_for_templates`. -/
structure TemplateOut where
  templateId : ℕ
  templateName : Str
  fields : List (Str × Payload)
deriving DecidableEq, Repr

/-- The loop of `extract_fields_for_templates`.  `fieldsOf` is the
template-field table keyed by template id (`order_by("sequence")` is the
stable sort below); `oracles` gives each candidate's extraction-API oracle;
`matched` and `acc` are the loop state (`matched_codes`, `templates`). -/
def extractLoop (fieldsOf : ℕ → List FieldRec) (extractedCodes : Finset Str)
    (fileUrl : Str) (conf : Option ℚ) (oracles : ℕ → ℕ → ApiOutcome) :
    Finset Str → List TemplateOut → List Candidate → List TemplateOut
  | _, acc, [] => acc
  | matched, acc, c :: rest =>
    let isGapFill := !acc.isEmpty
    let threshold := if isGapFill then GAP_FILL_THRESHOLD else SCORE_THRESHOLD
    if c.score < threshold then
      if !isGapFill then acc
      else extractLoop fieldsOf extractedCodes fileUrl conf oracles matched acc rest
    else if c.codes \ matched = ∅ then
      extractLoop fieldsOf extractedCodes fileUrl conf oracles matched acc rest
    else
      let fields := sortBy (fun f g => f.sequence < g.sequence) (fieldsOf c.id)
      if fields.isEmpty then
        extractLoop fieldsOf extractedCodes fileUrl conf oracles matched acc rest
      else
        let sk := buildSchema fields extractedCodes
        if sk.1.isEmpty then
          extractLoop fieldsOf extractedCodes fileUrl conf oracles matched acc rest
        else
          match extractWithSchema fileUrl (oracles c.id) with
          | (_, _, some _) =>
            extractLoop fieldsOf extractedCodes fileUrl conf oracles matched acc rest
          | (v, meta, none) =>
            let pf := buildPrefillFields v meta sk.2 conf
            if pf.isEmpty then
              extractLoop fieldsOf extractedCodes fileUrl conf oracles matched acc rest
            else
              let acc2 := acc ++ [⟨c.id, c.name, pf⟩]
              let matched2 := matched ∪ c.codes
              if extractedCodes ⊆ matched2 then acc2
              else extractLoop fieldsOf extractedCodes fileUrl conf oracles matched2 acc2 rest

/-- `extract_fields_for_templates`. -/
def extractFieldsForTemplates (candidates : List Candidate)
    (extractedCodes : Finset Str) (fieldsOf : ℕ → List FieldRec) (fileUrl : Str)
    (conf : Option ℚ) (oracles : ℕ → ℕ → ApiOutcome) : List TemplateOut :=
  extractLoop fieldsOf extractedCodes fileUrl conf oracles ∅ [] candidates

/-! ## Theorems -/

/-- `upperStr` preserves emptiness. -/
theorem upperStr_eq_nil_iff (s : Str) : upperStr s = [] ↔ s = [] := by
  simp [upperStr]

/-- C8: `is_valid_code` rejects exactly the strings that, after trimming,
case-insensitively equal `""`, `"n/a"`, `"na"` or `"none"`, and accepts every
other (non-empty after trimming) string. -/
theorem C8_is_valid_code_rejects_exactly (s : Str) :
    isValidCode s = true ↔
      (strip s ≠ [] ∧ upperStr (strip s) ∉ [str "N/A", str "NA", str "NONE"]) := by
  unfold isValidCode
  by_cases h : s.isEmpty = true
  · have hs : s = [] := by simpa using h
    subst hs
    simp [strip, List.rdropWhile]
  · rw [if_neg h]
    have he : (upperStr (strip s)).isEmpty = false ↔ ¬strip s = [] := by
      simp [List.isEmpty_eq_false, upperStr_eq_nil_iff]
    simp only [Bool.and_eq_true, Bool.not_eq_true', Bool.or_eq_false_iff,
      beq_eq_false_iff_ne, ne_eq, List.mem_cons, List.not_mem_nil, not_or, he]
    tauto

/-! ### C9: idempotence of `_to_list` under re-flattening -/

/-- `strip` leaves no leading whitespace behind. -/
theorem strip_dropWhile_self (s : Str) :
    (strip s).dropWhile pyIsSpace = strip s := by
  rw [List.dropWhile_eq_self_iff]
  intro hl
  have hpre : strip s <+: s.dropWhile pyIsSpace := List.rdropWhile_prefix _ _
  have hlen : 0 < (s.dropWhile pyIsSpace).length := lt_of_lt_of_le hl hpre.length_le
  have hget : (strip s).get ⟨0, hl⟩ = (s.dropWhile pyIsSpace).get ⟨0, hlen⟩ := by
    simpa using hpre.getElem hl
  rw [hget]
  exact List.dropWhile_get_zero_not _ _ hlen

/-- `strip` is idempotent. -/
theorem strip_idem (s : Str) : strip (strip s) = strip s := by
  conv_lhs => rw [strip, strip_dropWhile_self]
  exact List.rdropWhile_idempotent _ _

/-- Characters of `strip s` come from `s`. -/
theorem mem_of_mem_strip {c : Char} {s : Str} (h : c ∈ strip s) : c ∈ s := by
  have h1 : c ∈ s.dropWhile pyIsSpace :=
    (List.rdropWhile_prefix _ _).subset h
  exact List.dropWhile_subset _ h1

/-- No piece produced by `splitDelim` contains a delimiter. -/
theorem splitDelim_no_delim :
    ∀ (s : Str), ∀ pce ∈ splitDelim s, ∀ c ∈ pce, isDelim c = false := by
  intro s
  induction s with
  | nil => intro pce hp c hc; simp [splitDelim] at hp; subst hp; simp at hc
  | cons a rest ih =>
    intro pce hp c hc
    by_cases ha : isDelim a
    · rw [splitDelim, if_pos ha] at hp
      rcases List.mem_cons.mp hp with h | h
      · subst h; simp at hc
      · exact ih pce h c hc
    · rw [splitDelim, if_neg ha] at hp
      rcases hr : splitDelim rest with _ | ⟨p, ps⟩
      · rw [hr] at hp
        simp only [List.mem_singleton] at hp
        subst hp
        rcases List.mem_singleton.mp hc with rfl
        simpa using ha
      · rw [hr] at hp
        rcases List.mem_cons.mp hp with h | h
        · subst h
          rcases List.mem_cons.mp hc with rfl | hcp
          · simpa using ha
          · exact ih p (hr ▸ List.mem_cons_self p ps) c hcp
        · exact ih pce (hr ▸ List.mem_cons_of_mem p h) c hc

/-- A delimiter-free string splits into itself alone. -/
theorem splitDelim_of_no_delim :
    ∀ (s : Str), (∀ c ∈ s, isDelim c = false) → splitDelim s = [s] := by
  intro s
  induction s with
  | nil => intro _; rfl
  | cons a rest ih =>
    intro h
    have ha : isDelim a = false := h a (List.mem_cons_self a rest)
    have hr : splitDelim rest = [rest] :=
      ih (fun c hc => h c (List.mem_cons_of_mem a hc))
    rw [splitDelim, if_neg (by simp [ha]), hr]

/-- A clean token: non-empty, already stripped, delimiter-free.  These are
exactly the shapes `_to_list` can emit when every scalar stringifies cleanly. -/
def cleanTok (s : Str) : Bool :=
  !s.isEmpty && (strip s == s) && s.all (fun c => !isDelim c)

/-- `_to_list` maps a clean token back to itself alone. -/
theorem toList_pystr_clean {t : Str} (h : cleanTok t = true) :
    toList (.pystr t) = [t] := by
  have h1 : t.isEmpty = false := by
    simp only [cleanTok, Bool.and_eq_true, Bool.not_eq_true'] at h
    exact h.1.1
  have h2 : strip t = t := by
    simp only [cleanTok, Bool.and_eq_true, beq_iff_eq] at h
    exact h.1.2
  have h3 : ∀ c ∈ t, isDelim c = false := by
    simp only [cleanTok, Bool.and_eq_true, List.all_eq_true, Bool.not_eq_true'] at h
    exact fun c hc => h.2 c hc
  rw [toList, splitDelim_of_no_delim t h3]
  simp [h2, h1]

mutual

/-- Values whose every scalar leaf stringifies to a clean token. -/
def scalarsClean : PyVal → Bool
  | .pynone => true
  | .pystr _ => true
  | .pylist items => scalarsCleanMany items
  | .scalar rp => cleanTok rp

/-- `scalarsClean` over a list of values. -/
def scalarsCleanMany : List PyVal → Bool
  | [] => true
  | v :: vs => scalarsClean v && scalarsCleanMany vs

end

mutual

/-- Every token `_to_list` emits from a `scalarsClean` value is clean. -/
theorem tokensClean : ∀ (v : PyVal), scalarsClean v = true →
    ∀ t ∈ toList v, cleanTok t = true
  | .pynone, _ => by intro t ht; simp [toList] at ht
  | .pystr s, _ => by
    intro t ht
    simp only [toList, List.mem_filter, List.mem_map, Bool.not_eq_true'] at ht
    obtain ⟨⟨pce, hpce, rfl⟩, hne⟩ := ht
    simp only [cleanTok, Bool.and_eq_true, Bool.not_eq_true', beq_iff_eq,
      List.all_eq_true, Bool.not_eq_true]
    refine ⟨⟨hne, strip_idem pce⟩, ?_⟩
    intro c hc
    exact splitDelim_no_delim s pce hpce c (mem_of_mem_strip hc)
  | .pylist items, h => by
    intro t ht
    rw [toList] at ht
    exact tokensCleanMany items (by rwa [scalarsClean] at h) t ht
  | .scalar rp, h => by
    intro t ht
    rw [toList, List.mem_singleton] at ht
    subst ht
    rwa [scalarsClean] at h

/-- `tokensClean` over a list of values. -/
theorem tokensCleanMany : ∀ (vs : List PyVal), scalarsCleanMany vs = true →
    ∀ t ∈ toListMany vs, cleanTok t = true
  | [], _ => by intro t ht; simp [toListMany] at ht
  | v :: vs, h => by
    intro t ht
    rw [scalarsCleanMany, Bool.and_eq_true] at h
    rw [toListMany, List.mem_append] at ht
    rcases ht with ht | ht
    · exact tokensClean v h.1 t ht
    · exact tokensCleanMany vs h.2 t ht

end

/-- Re-flattening a list of clean tokens returns them unchanged. -/
theorem toListMany_pystr_clean :
    ∀ (ts : List Str), (∀ t ∈ ts, cleanTok t = true) →
      toListMany (ts.map .pystr) = ts := by
  intro ts
  induction ts with
  | nil => intro _; rfl
  | cons t ts ih =>
    intro h
    rw [List.map_cons, toListMany, toList_pystr_clean (h t (List.mem_cons_self t ts)),
      ih (fun u hu => h u (List.mem_cons_of_mem t hu))]
    rfl

/-- Applying `_to_list` to the list `_to_list` produced: the re-flattening of
the C9 claim. -/
def reflatten (v : PyVal) : List Str :=
  toList (.pylist ((toList v).map .pystr))

/-- C9 counterexample: `_to_list` is not idempotent on every value.  The value
here models a Python pair `(1, 2)` — not `None`, not a string, not a list —
whose `str()` is `"(1, 2)"`; flattening gives `["(1, 2)"]`, and re-flattening
splits at the comma into `["(1", "2)"]`. -/
theorem C9_to_list_not_idempotent_counterexample :
    reflatten (.scalar (str "(1, 2)")) ≠ toList (.scalar (str "(1, 2)")) := by
  decide

/-- C9 (amended): `_to_list` is idempotent under re-flattening for every value
whose scalar leaves stringify to clean tokens (non-empty, stripped,
delimiter-free) — in particular for every value built from `None`, strings and
nested lists. -/
theorem C9_to_list_idempotent_on_clean (v : PyVal) (h : scalarsClean v = true) :
    reflatten v = toList v :=
  toListMany_pystr_clean (toList v) (tokensClean v h)

/-- Witness for C9: a concrete delimited string, flattened then re-flattened. -/
theorem C9_to_list_idempotent_witness :
    scalarsClean (.pystr (str "a, b")) = true ∧
      reflatten (.pystr (str "a, b")) = toList (.pystr (str "a, b")) :=
  ⟨by decide, C9_to_list_idempotent_on_clean (.pystr (str "a, b")) (by decide)⟩

/-! ### C1 and C6: score bounds and superset monotonicity -/

/-- Every weight is non-negative. -/
theorem weight_nonneg (fields : List TField) (c : Str) : 0 ≤ weight fields c := by
  unfold weight
  positivity

/-- `total_weight` is non-negative. -/
theorem totalWeight_nonneg (fields : List TField) : 0 ≤ totalWeight fields :=
  Finset.sum_nonneg (fun c _ => weight_nonneg fields c)

/-- Accumulated weight sums are non-negative. -/
theorem rawScore_nonneg (fields : List TField) (tid : ℕ) : 0 ≤ rawScore fields tid := by
  unfold rawScore
  apply List.sum_nonneg
  intro x hx
  obtain ⟨f, _, rfl⟩ := List.mem_map.mp hx
  exact weight_nonneg _ _

/-- Keyword bonuses are non-negative. -/
theorem keywordBonus_nonneg (nm kws : Str) (keywords : List Str) :
    0 ≤ keywordBonus nm kws keywords := by
  unfold keywordBonus
  split
  · exact le_refl 0
  · have : (0 : ℚ) ≤ KEYWORD_BONUS := by norm_num [KEYWORD_BONUS]
    positivity

/-- The bonus granted to a template is non-negative. -/
theorem bonusFor_nonneg (fields : List TField) (keywords : List Str) (tid : ℕ) :
    0 ≤ bonusFor fields keywords tid := by
  unfold bonusFor
  split
  · exact keywordBonus_nonneg _ _ _
  · exact le_refl 0

/-- The codes recorded for a template are keys of the weights dict. -/
theorem matchedCodes_subset_codesOf (fields : List TField) (tid : ℕ) :
    matchedCodes fields tid ⊆ codesOf fields := by
  intro c hc
  unfold matchedCodes matchedFields at hc
  simp only [List.mem_toFinset, List.mem_map, List.mem_filter, Bool.and_eq_true,
    decide_eq_true_eq, beq_iff_eq] at hc
  obtain ⟨f, ⟨_, hmem, _⟩, rfl⟩ := hc
  exact hmem

/-- No template has two distinct matched field rows sharing a code: this is
the hypothesis under which the pre-bonus score normalizes to ≤ 1. -/
abbrev NoDupCodeTid (fields : List TField) : Prop :=
  fields.Pairwise (fun f g => f.code ≠ g.code ∨ f.tid ≠ g.tid)

/-- Under `NoDupCodeTid`, the codes counted for one template are distinct. -/
theorem matchedFields_codes_nodup {fields : List TField} (h : NoDupCodeTid fields)
    (tid : ℕ) : ((matchedFields fields tid).map (fun f => f.code)).Nodup := by
  have h1 : (matchedFields fields tid).Pairwise
      (fun f g => f.code ≠ g.code ∨ f.tid ≠ g.tid) :=
    h.sublist (List.filter_sublist _)
  have h2 : ∀ f ∈ matchedFields fields tid, f.tid = tid := by
    intro f hf
    have := (List.mem_filter.mp hf).2
    simp only [Bool.and_eq_true, beq_iff_eq] at this
    exact this.2
  have h3 : (matchedFields fields tid).Pairwise (fun f g => f.code ≠ g.code) := by
    refine List.Pairwise.imp_of_mem ?_ h1
    intro a b ha hb hab
    rcases hab with hcode | htid
    · exact hcode
    · exact absurd (by rw [h2 a ha, h2 b hb]) htid
  exact h3.map _ (fun a b hab => hab)

/-- Summing over the `toFinset` of a duplicate-free list is the list sum. -/
theorem sum_toFinset_of_nodup {l : List Str} (f : Str → ℚ) (h : l.Nodup) :
    ∑ c ∈ l.toFinset, f c = (l.map f).sum := by
  induction l with
  | nil => simp
  | cons a t ih =>
    rw [List.toFinset_cons]
    rcases List.nodup_cons.mp h with ⟨ha, ht⟩
    rw [Finset.sum_insert (by simpa using ha), List.map_cons, List.sum_cons, ih ht]

/-- Under `NoDupCodeTid`, the accumulated sum is the set sum over matched
codes. -/
theorem rawScore_eq_sum {fields : List TField} (h : NoDupCodeTid fields) (tid : ℕ) :
    rawScore fields tid = ∑ c ∈ matchedCodes fields tid, weight fields c := by
  unfold rawScore matchedCodes
  rw [sum_toFinset_of_nodup _ (matchedFields_codes_nodup h tid), List.map_map]
  rfl

/-- Under `NoDupCodeTid`, the pre-bonus normalized score is at most one. -/
theorem prebonus_le_one {fields : List TField} (h : NoDupCodeTid fields) (tid : ℕ) :
    rawScore fields tid / totalWeight fields ≤ 1 := by
  have hle : rawScore fields tid ≤ totalWeight fields := by
    rw [rawScore_eq_sum h tid]
    exact Finset.sum_le_sum_of_subset_of_nonneg (matchedCodes_subset_codesOf fields tid)
      (fun c _ _ => weight_nonneg fields c)
  rcases eq_or_lt_of_le (totalWeight_nonneg fields) with h0 | h0
  · rw [← h0, div_zero]
    norm_num
  · exact div_le_one_of_le₀ hle (le_of_lt h0)

/-- The capped final score always lies in `[0, 1]`. -/
theorem finalScore_mem_unit (fields : List TField) (keywords : List Str) (tid : ℕ) :
    0 ≤ finalScore fields keywords tid ∧ finalScore fields keywords tid ≤ 1 := by
  unfold finalScore
  refine ⟨le_min (by norm_num) ?_, min_le_left _ _⟩
  exact add_nonneg (div_nonneg (rawScore_nonneg fields tid) (totalWeight_nonneg fields))
    (bonusFor_nonneg fields keywords tid)

/-- Membership through stable insertion. -/
theorem mem_insertBy {lt : α → α → Bool} {x a : α} {l : List α} :
    a ∈ insertBy lt x l ↔ a = x ∨ a ∈ l := by
  induction l with
  | nil => simp [insertBy]
  | cons y ys ih =>
    rw [insertBy]
    split
    · simp only [List.mem_cons, ih]
      tauto
    · simp only [List.mem_cons]

/-- Membership through stable sorting. -/
theorem mem_sortBy {lt : α → α → Bool} {a : α} {l : List α} :
    a ∈ sortBy lt l ↔ a ∈ l := by
  induction l with
  | nil => simp [sortBy]
  | cons x xs ih =>
    rw [sortBy, mem_insertBy]
    simp [ih]

/-- C1 (amended): every candidate `_score_candidates` reports carries a final
score in `[0, 1]`; and whenever no template owns two matched field rows with
the same code, each template's uncapped pre-bonus score (accumulated weight
sum over `total_weight`) is at most `1.0`.  (Without that proviso the
pre-bonus bound fails — see the counterexample.) -/
theorem C1_score_bounds :
    (∀ (fields : List TField) (keywords : List Str) (c : Candidate),
        c ∈ scoreCandidates fields keywords → 0 ≤ c.score ∧ c.score ≤ 1) ∧
    (∀ (fields : List TField) (tid : ℕ), NoDupCodeTid fields →
        rawScore fields tid / totalWeight fields ≤ 1) := by
  constructor
  · intro fields keywords c hc
    rw [scoreCandidates, mem_sortBy] at hc
    obtain ⟨tid, _, rfl⟩ := List.mem_map.mp hc
    exact finalScore_mem_unit fields keywords tid
  · intro fields tid h
    exact prebonus_le_one h tid

/-- A queryset in which one template (id 1) carries the same code on two
distinct field rows. -/
def dupFields : List TField :=
  [⟨str "X", 1, str "lbl1", str "T1", []⟩, ⟨str "X", 1, str "lbl2", str "T1", []⟩]

/-- C1 counterexample: with a duplicated (code, template) pair the uncapped
pre-bonus score reaches 2.0 — `_score_candidates` adds the weight once per
field row while `total_weight` counts each code once. -/
theorem C1_prebonus_counterexample :
    1 < rawScore dupFields 1 / totalWeight dupFields := by decide

/-- A duplicate-free single-template queryset used by the witnesses. -/
def fieldsW : List TField := [⟨str "X", 1, str "lbl", str "T1", []⟩]

/-- Witness for C1 at a concrete queryset. -/
theorem C1_score_bounds_witness :
    (0 ≤ (⟨1, str "T1", 1, {str "X"}⟩ : Candidate).score ∧
      (⟨1, str "T1", 1, {str "X"}⟩ : Candidate).score ≤ 1) ∧
    rawScore fieldsW 1 / totalWeight fieldsW ≤ 1 :=
  ⟨C1_score_bounds.1 fieldsW [] ⟨1, str "T1", 1, {str "X"}⟩ (by decide),
   C1_score_bounds.2 fieldsW 1 (by decide)⟩

/-- C6 (amended): among templates scored from the same matched-field set, if
no template repeats a code across two field rows, a template whose matched
code set strictly contains another's — both without keyword bonus — scores at
least as high. -/
theorem C6_superset_monotone (fields : List TField) (keywords : List Str)
    (tidA tidB : ℕ) (hnd : NoDupCodeTid fields)
    (hsub : matchedCodes fields tidB ⊂ matchedCodes fields tidA)
    (hbA : bonusFor fields keywords tidA = 0)
    (hbB : bonusFor fields keywords tidB = 0) :
    finalScore fields keywords tidB ≤ finalScore fields keywords tidA := by
  unfold finalScore
  rw [hbA, hbB, add_zero, add_zero]
  refine min_le_min (le_refl 1) ?_
  have hraw : rawScore fields tidB ≤ rawScore fields tidA := by
    rw [rawScore_eq_sum hnd, rawScore_eq_sum hnd]
    exact Finset.sum_le_sum_of_subset_of_nonneg (le_of_lt hsub)
      (fun c _ _ => weight_nonneg fields c)
  rcases eq_or_lt_of_le (totalWeight_nonneg fields) with h0 | h0
  · rw [← h0, div_zero, div_zero]
  · exact (div_le_div_iff_of_pos_right h0).mpr hraw

/-- A queryset where template 2 repeats code X on four field rows while
template 1 matches {X, Y} and template 3 holds code Z. -/
def fieldsC6 : List TField :=
  [⟨str "X", 1, str "a", str "T1", []⟩, ⟨str "Y", 1, str "b", str "T1", []⟩,
   ⟨str "X", 2, str "c", str "T2", []⟩, ⟨str "X", 2, str "d", str "T2", []⟩,
   ⟨str "X", 2, str "e", str "T2", []⟩, ⟨str "X", 2, str "f", str "T2", []⟩,
   ⟨str "Z", 3, str "g", str "T3", []⟩]

/-- C6 counterexample: template 1's matched codes strictly contain template
2's, neither gets a keyword bonus, yet template 1 scores strictly lower —
duplicate field rows inflate template 2's accumulated sum. -/
theorem C6_superset_counterexample :
    matchedCodes fieldsC6 2 ⊂ matchedCodes fieldsC6 1 ∧
    bonusFor fieldsC6 [] 1 = 0 ∧ bonusFor fieldsC6 [] 2 = 0 ∧
    finalScore fieldsC6 [] 1 < finalScore fieldsC6 [] 2 := by decide

/-- A duplicate-free queryset where template 1 matches {X, Y} strictly above
template 2's {X}. -/
def fieldsW6 : List TField :=
  [⟨str "X", 1, str "a", str "T1", []⟩, ⟨str "Y", 1, str "b", str "T1", []⟩,
   ⟨str "X", 2, str "c", str "T2", []⟩]

/-- Witness for C6 at a concrete duplicate-free queryset. -/
theorem C6_superset_monotone_witness :
    finalScore fieldsW6 [] 2 ≤ finalScore fieldsW6 [] 1 :=
  C6_superset_monotone fieldsW6 [] 1 2 (by decide) (by decide) (by decide) (by decide)

/-! ### C4 and C2: entity-matcher tier discipline -/

/-- C4: when the extraction carries a (non-empty) patient identifier,
`find_patient` returns the unique MRN hit; on two or more hits it returns
`found = False` with the error `"Multiple patients match MRN"` — whatever the
name fields and the rest of the store hold, so no later tier is consulted —
and on zero hits it falls through to the name tiers. -/
theorem C4_find_patient_mrn_tier (db : List PatientRec) (ex : ExtractionIdent)
    (m : Str) (hid : ex.patientId = some m) (hm : m ≠ []) :
    (∀ p : PatientRec, db.filter (fun r => r.mrn == m) = [p] →
        findPatient db ex = ⟨some p, none⟩) ∧
    (2 ≤ (db.filter (fun r => r.mrn == m)).length →
        findPatient db ex = ⟨none, some (str "Multiple patients match MRN")⟩ ∧
        str "Multiple" <:+: str "Multiple patients match MRN" ∧
        str "MRN" <:+: str "Multiple patients match MRN") ∧
    ((db.filter (fun r => r.mrn == m)).length = 0 →
        findPatient db ex = findPatientFromName db ex) := by
  have ht : truthyS ex.patientId = true := by
    rw [hid]
    simp [truthyS, hm]
  refine ⟨?_, ?_, ?_⟩
  · intro p hp
    unfold findPatient
    rw [if_pos ht, hid]
    simp only [Option.getD_some]
    rw [hp]
  · intro h2
    refine ⟨?_, by decide, by decide⟩
    unfold findPatient
    rw [if_pos ht, hid]
    simp only [Option.getD_some]
    rcases hfil : db.filter (fun r => r.mrn == m) with _ | ⟨a, _ | ⟨b, rest2⟩⟩
    · rw [hfil] at h2; simp at h2
    · rw [hfil] at h2; simp at h2
    · rw [hfil]
  · intro h0
    unfold findPatient
    rw [if_pos ht, hid]
    simp only [Option.getD_some]
    rw [List.length_eq_zero.mp h0]

/-- Two patients sharing one MRN. -/
def patA : PatientRec := ⟨str "M1", str "John", str "Doe", str "1990-01-01"⟩

/-- Second patient with the colliding MRN. -/
def patB : PatientRec := ⟨str "M1", str "Jane", str "Roe", str "1991-01-01"⟩

/-- An extraction carrying only the colliding MRN. -/
def exMrn : ExtractionIdent := { emptyIdent with patientId := some (str "M1") }

/-- Witness for C4: a two-hit MRN lookup returns the ambiguity error. -/
theorem C4_find_patient_mrn_tier_witness :
    findPatient [patA, patB] exMrn =
      ⟨none, some (str "Multiple patients match MRN")⟩ :=
  ((C4_find_patient_mrn_tier [patA, patB] exMrn (str "M1") rfl
    (by decide)).2.1 (by decide)).1

/-- C2 counterexample and amended behaviour need concrete staff records. -/
def staffA : StaffRec := ⟨str "123", str "Ann", str "One"⟩

/-- Second staff record sharing the NPI. -/
def staffB : StaffRec := ⟨str "123", str "Bob", str "Two"⟩

/-- An extraction carrying only the colliding practitioner NPI. -/
def exNpi : ExtractionIdent := { emptyIdent with practitionerNpi := some (str "123") }

/-- C2 counterexample: with two staff records sharing the extracted NPI —
a multi-match at the identifier tier — `find_reviewer` does not report any
error (its result type has no error field at all): it silently proceeds past
the tiers and auto-assigns the first staff record. -/
theorem C2_find_reviewer_counterexample :
    2 ≤ (([staffA, staffB] : List StaffRec).filter
        (fun s => s.npi == str "123")).length ∧
    findReviewer [staffA, staffB] exNpi = ⟨some staffA, true⟩ := by decide

/-- C2 (amended): `find_reviewer` keeps only the positive half of
`find_patient`'s single-hit discipline.  A unique NPI hit is returned, but a
multi-match (or miss) at the NPI tier silently proceeds to the name tier, and
a multi-match (or miss) at the name tier proceeds to auto-assignment; no
ambiguity error is ever reported (ReviewerMatch has no error field). -/
theorem C2_find_reviewer_no_multi_error (db : List StaffRec) (ex : ExtractionIdent)
    (n : Str) (hid : ex.practitionerNpi = some n) (hn : n ≠ []) :
    (∀ s : StaffRec, db.filter (fun r => r.npi == n) = [s] →
        findReviewer db ex = ⟨some s, false⟩) ∧
    ((db.filter (fun r => r.npi == n)).length ≠ 1 →
        findReviewer db ex = findReviewerFromName db ex) ∧
    (∀ first last : Str,
        parseFullName ex.practitionerFirstName ex.practitionerLastName
          ex.practitionerName = (some first, some last) →
        first ≠ [] → last ≠ [] →
        (db.filter (fun s => ieq s.firstName first && ieq s.lastName last)).length ≠ 1 →
        findReviewerFromName db ex = autoAssign db) := by
  have ht : truthyS ex.practitionerNpi = true := by
    rw [hid]
    simp [truthyS, hn]
  refine ⟨?_, ?_, ?_⟩
  · intro s hs
    unfold findReviewer
    rw [if_pos ht, hid]
    simp only [Option.getD_some]
    rw [hs]
  · intro h1
    unfold findReviewer
    rw [if_pos ht, hid]
    simp only [Option.getD_some]
    rcases hfil : db.filter (fun r => r.npi == n) with _ | ⟨a, _ | ⟨b, rest2⟩⟩
    · rw [hfil]
    · rw [hfil] at h1; simp at h1
    · rw [hfil]
  · intro first last hpr hf hl hcount
    unfold findReviewerFromName
    rw [hpr]
    simp only
    rw [if_pos (by simp [truthyS, hf, hl])]
    simp only [Option.getD_some]
    rcases hfil : db.filter (fun s => ieq s.firstName first && ieq s.lastName last)
      with _ | ⟨a, _ | ⟨b, rest2⟩⟩
    · rw [hfil]
    · rw [hfil] at hcount; simp at hcount
    · rw [hfil]

/-- Witness for C2: the two-hit NPI lookup of the counterexample indeed skips
to the name-and-fallback stage. -/
theorem C2_find_reviewer_no_multi_error_witness :
    findReviewer [staffA, staffB] exNpi = findReviewerFromName [staffA, staffB] exNpi :=
  (C2_find_reviewer_no_multi_error [staffA, staffB] exNpi (str "123") rfl
    (by decide)).2.1 (by decide)

/-! ### C3: bounded retry with immediate 4xx return -/

/-- One retrying step of the loop at attempt 0 (of 3 attempts). -/
theorem callApiAux_step0 (oracle : ℕ → ApiOutcome) (h : retryable (oracle 0) = true) :
    callApiAux oracle 0 3 =
      ((callApiAux oracle 1 2).1, 1 :: (callApiAux oracle 1 2).2) := by
  rcases ho : oracle 0 with _ | r
  · conv_lhs => rw [callApiAux]
    rw [ho]
  · rw [ho, retryable] at h
    have hc : (respOk r || is4xx r) = false := by simpa using h
    conv_lhs => rw [callApiAux]
    rw [ho]
    dsimp only
    rw [if_neg (by simp [hc])]

/-- One retrying step of the loop at attempt 1. -/
theorem callApiAux_step1 (oracle : ℕ → ApiOutcome) (h : retryable (oracle 1) = true) :
    callApiAux oracle 1 2 =
      ((callApiAux oracle 2 1).1, 2 :: (callApiAux oracle 2 1).2) := by
  rcases ho : oracle 1 with _ | r
  · conv_lhs => rw [callApiAux]
    rw [ho]
  · rw [ho, retryable] at h
    have hc : (respOk r || is4xx r) = false := by simpa using h
    conv_lhs => rw [callApiAux]
    rw [ho]
    dsimp only
    rw [if_neg (by simp [hc])]

/-- The final attempt: a retryable outcome ends the loop with no response. -/
theorem callApiAux_step2 (oracle : ℕ → ApiOutcome) (h : retryable (oracle 2) = true) :
    callApiAux oracle 2 1 = (none, []) := by
  rcases ho : oracle 2 with _ | r
  · conv_lhs => rw [callApiAux]
    rw [ho]
  · rw [ho, retryable] at h
    have hc : (respOk r || is4xx r) = false := by simpa using h
    conv_lhs => rw [callApiAux]
    rw [ho]
    dsimp only
    rw [if_neg (by simp [hc])]

/-- A non-retryable response at attempt `k` is returned at once
(stated at the three loop depths that occur). -/
theorem callApiAux_return (oracle : ℕ → ApiOutcome) (k : ℕ) (r : Response)
    (hor : oracle k = .resp r) (hcond : (respOk r || is4xx r) = true) :
    callApiAux oracle k 3 = (some r, []) ∧ callApiAux oracle k 2 = (some r, []) ∧
      callApiAux oracle k 1 = (some r, []) := by
  refine ⟨?_, ?_, ?_⟩ <;>
    (conv_lhs => rw [callApiAux]) <;> rw [hor] <;> dsimp only <;> rw [if_pos hcond]

/-- C3: (a) if every attempt before `k ≤ MAX_RETRIES` is retryable (exception
or 5xx) and attempt `k` yields an ok or 4xx response, the call returns that
response at once — in particular a 4xx is never retried — having slept the
attempt-indexed linear backoffs `1, …, k`; (b) if every attempt is retryable,
the call exhausts its `MAX_RETRIES` retries (backoffs `1, …, MAX_RETRIES`),
returns no response, and `categorize_document` reports a non-`None` terminal
error for the document. -/
theorem C3_api_retry_discipline (oracle : ℕ → ApiOutcome) :
    (∀ (k : ℕ) (r : Response), k ≤ MAX_RETRIES →
        (∀ j, j < k → retryable (oracle j) = true) →
        oracle k = .resp r → (respOk r = true ∨ is4xx r = true) →
        callApi oracle = (some r, (List.range k).map (· + 1))) ∧
    ((∀ j, j ≤ MAX_RETRIES → retryable (oracle j) = true) →
        callApi oracle = (none, (List.range MAX_RETRIES).map (· + 1)) ∧
        ∀ (fu : Str) (ats : List DocType), fu ≠ [] →
          (categorizeDocument fu ats oracle).error =
            some (str "API request failed after retries")) := by
  constructor
  · intro k r hk hprev hor hok
    have hcond : (respOk r || is4xx r) = true := by
      rcases hok with h | h <;> simp [h]
    have hk2 : k ≤ 2 := hk
    interval_cases k
    · show callApiAux oracle 0 3 = _
      rw [(callApiAux_return oracle 0 r hor hcond).1]
      rfl
    · show callApiAux oracle 0 3 = _
      rw [callApiAux_step0 oracle (hprev 0 (by decide)),
        (callApiAux_return oracle 1 r hor hcond).2.1]
      rfl
    · show callApiAux oracle 0 3 = _
      rw [callApiAux_step0 oracle (hprev 0 (by decide)),
        callApiAux_step1 oracle (hprev 1 (by decide)),
        (callApiAux_return oracle 2 r hor hcond).2.2]
      rfl
  · intro hall
    have hcall : callApi oracle = (none, [1, 2]) := by
      show callApiAux oracle 0 3 = _
      rw [callApiAux_step0 oracle (hall 0 (by decide)),
        callApiAux_step1 oracle (hall 1 (by decide)),
        callApiAux_step2 oracle (hall 2 (by decide))]
    refine ⟨hcall, ?_⟩
    intro fu ats hfu
    unfold categorizeDocument
    rw [if_neg (by simp [hfu]), hcall]
    rfl

/-- Witness for C3: an always-failing transport exhausts its retries, sleeps
`1, 2`, and `categorize_document` surfaces the terminal error. -/
theorem C3_api_retry_discipline_witness :
    callApi (fun _ => ApiOutcome.exc) =
      (none, (List.range MAX_RETRIES).map (· + 1)) ∧
    (categorizeDocument (str "u") [] (fun _ => ApiOutcome.exc)).error =
      some (str "API request failed after retries") := by
  have h := (C3_api_retry_discipline (fun _ => ApiOutcome.exc)).2
    (fun j _ => by rfl)
  exact ⟨h.1, h.2 (str "u") [] (by decide)⟩

/-! ### C7: aggregate confidence is the minimum numeric per-field confidence -/

/-- The running fold of `min` lands on a list element (or the seed). -/
theorem foldl_min_mem : ∀ (xs : List ℚ) (x : ℚ), xs.foldl min x ∈ x :: xs := by
  intro xs
  induction xs with
  | nil => intro x; simp
  | cons a t ih =>
    intro x
    rw [List.foldl_cons]
    rcases List.mem_cons.mp (ih (min x a)) with h | h
    · rcases min_choice x a with hc | hc <;> rw [h, hc] <;> simp
    · simp [List.mem_cons, h]

/-- The running fold of `min` bounds the seed and every element. -/
theorem foldl_min_le : ∀ (xs : List ℚ) (x : ℚ), ∀ v ∈ x :: xs, xs.foldl min x ≤ v := by
  intro xs
  induction xs with
  | nil =>
    intro x v hv
    rcases List.mem_singleton.mp hv with rfl
    simp
  | cons a t ih =>
    intro x v hv
    rw [List.foldl_cons]
    rcases List.mem_cons.mp hv with rfl | hv2
    · exact le_trans (ih (min v a) (min v a) (List.mem_cons_self _ _)) (min_le_left v a)
    · rcases List.mem_cons.mp hv2 with rfl | hv3
      · exact le_trans (ih (min x v) (min x v) (List.mem_cons_self _ _)) (min_le_right x v)
      · exact ih (min x a) v (List.mem_cons_of_mem _ hv3)

/-- C7: `_extract_min_confidence` yields `None` exactly on absent metadata or
when no field carries a numeric `ocrConfidence`; otherwise it yields the
minimum of those numeric values; and on a successful call,
`categorize_document` stores exactly this aggregate in its result. -/
theorem C7_min_confidence :
    (extractMinConfidence none = none) ∧
    (∀ m : Metadata, confScores m = [] → extractMinConfidence (some m) = none) ∧
    (∀ (m : Metadata) (q : ℚ), extractMinConfidence (some m) = some q →
        q ∈ confScores m ∧ ∀ v ∈ confScores m, q ≤ v) ∧
    (∀ m : Metadata, confScores m ≠ [] → ∃ q, extractMinConfidence (some m) = some q) ∧
    (∀ (fu : Str) (ats : List DocType) (oracle : ℕ → ApiOutcome) (r : Response),
        fu ≠ [] → (callApi oracle).1 = some r → respOk r = true →
        (categorizeDocument fu ats oracle).confidence = extractMinConfidence r.metadata) := by
  refine ⟨rfl, ?_, ?_, ?_, ?_⟩
  · intro m hm
    unfold extractMinConfidence
    dsimp only
    rw [hm]
    split <;> rfl
  · intro m q hq
    unfold extractMinConfidence at hq
    dsimp only at hq
    by_cases hme : m.isEmpty
    · rw [if_pos hme] at hq
      exact absurd hq (by simp)
    · rw [if_neg hme] at hq
      rcases hcs : confScores m with _ | ⟨x, xs⟩
      · rw [hcs] at hq
        exact absurd hq (by simp [listMin])
      · rw [hcs] at hq
        rw [listMin] at hq
        have hqv : q = xs.foldl min x := by
          simpa using hq.symm
        subst hqv
        exact ⟨foldl_min_mem xs x, foldl_min_le xs x⟩
  · intro m hm
    unfold extractMinConfidence
    dsimp only
    have hme : m.isEmpty = false := by
      rcases m with _ | _
      · exact absurd rfl hm
      · rfl
    rw [if_neg (by simp [hme])]
    rcases hcs : confScores m with _ | ⟨x, xs⟩
    · exact absurd hcs hm
    · exact ⟨xs.foldl min x, rfl⟩
  · intro fu ats oracle r hfu hcall hok
    unfold categorizeDocument
    rw [if_neg (by simp [hfu]), hcall]
    dsimp only
    rw [if_neg (by simp [hok])]

/-- Concrete metadata with numeric confidences 0.5 and 0.75, a non-numeric
entry and a non-dict entry. -/
def mdW : Metadata :=
  [(str "a", .fdict (some (.numv (1 / 2)))), (str "b", .fdict (some (.numv (3 / 4)))),
   (str "c", .fdict (some .other)), (str "d", .notDict)]

/-- Witness for C7: the aggregate over `mdW` is `0.5`, a member of and lower
bound for the numeric confidences. -/
theorem C7_min_confidence_witness :
    (1 / 2 : ℚ) ∈ confScores mdW ∧ ∀ v ∈ confScores mdW, (1 / 2 : ℚ) ≤ v :=
  C7_min_confidence.2.2.1 mdW (1 / 2) (by decide)

/-! ### C10: a zero per-field confidence falls back to the document level -/

/-- C10: in `_build_prefill_fields`, a per-field `ocrConfidence` of exactly 0
is falsy under `conf or fallback_confidence`, so the field's confidence note
is computed from the document-level fallback; with no fallback the field
carries no confidence note at all. -/
theorem C10_zero_confidence_uses_fallback (md : Metadata) (km : List (Str × FieldRec))
    (fb : Option ℚ) (key : Str) (raw : JVal)
    (h : lookupAssoc key md = some (.fdict (some (.numv 0)))) :
    ∀ p : Payload, prefillField (some md) km fb key raw = some p →
      p.badges = badgeFromConf fb ∧ (fb = none → p.badges = none) := by
  intro p hp
  unfold prefillField at hp
  rcases hnv : normalizeValue raw with _ | v
  · rw [hnv] at hp
    exact absurd hp (by simp)
  · rw [hnv] at hp
    dsimp only at hp
    rw [h] at hp
    dsimp only at hp
    rw [if_pos rfl] at hp
    obtain rfl := (Option.some.injEq _ _).mp hp
    exact ⟨rfl, fun hfb => by rw [hfb] at *; rfl⟩

/-- Concrete metadata reporting `ocrConfidence = 0` for field `k`. -/
def mdZero : Metadata := [(str "k", .fdict (some (.numv 0)))]

/-- Witness for C10: with fallback 0.5 the zero-confidence field is tagged
from the fallback (`AI 50%`). -/
theorem C10_zero_confidence_uses_fallback_witness :
    (⟨str "v", none, some [⟨str "AI 50%", confColor⟩]⟩ : Payload).badges =
      badgeFromConf (some (1 / 2)) :=
  (C10_zero_confidence_uses_fallback mdZero [] (some (1 / 2)) (str "k")
    (.jstr (str "v")) rfl ⟨str "v", none, some [⟨str "AI 50%", confColor⟩]⟩
    (by decide)).1

/-! ### C5: two-threshold greedy extraction -/

/-- Once the accumulator is non-empty, the loop never changes its head: the
loop only appends accepted templates. -/
theorem extractLoop_cons_head (fieldsOf : ℕ → List FieldRec) (target : Finset Str)
    (fu : Str) (conf : Option ℚ) (oracles : ℕ → ℕ → ApiOutcome) :
    ∀ (cands : List Candidate) (matched : Finset Str) (x : TemplateOut)
      (acctail : List TemplateOut),
      (extractLoop fieldsOf target fu conf oracles matched (x :: acctail)
        cands).head? = some x := by
  intro cands
  induction cands with
  | nil =>
    intro matched x acctail
    rw [extractLoop]
    rfl
  | cons c rest ih =>
    intro matched x acctail
    rw [extractLoop]
    dsimp only
    repeat' split
    all_goals first
      | (exact ih matched x acctail)
      | rfl
      | (exact ih (matched ∪ c.codes) x _)

/-- Starting from an empty accumulator, the first template the loop accepts
comes from a candidate clearing the primary threshold. -/
theorem extractLoop_head_primary (fieldsOf : ℕ → List FieldRec) (target : Finset Str)
    (fu : Str) (conf : Option ℚ) (oracles : ℕ → ℕ → ApiOutcome) :
    ∀ (cands : List Candidate) (matched : Finset Str) (t : TemplateOut)
      (restOut : List TemplateOut),
      extractLoop fieldsOf target fu conf oracles matched [] cands = t :: restOut →
      ∃ c ∈ cands, c.id = t.templateId ∧ c.name = t.templateName ∧
        SCORE_THRESHOLD ≤ c.score := by
  intro cands
  induction cands with
  | nil =>
    intro matched t restOut h
    rw [extractLoop] at h
    exact absurd h (by simp)
  | cons c rest ih =>
    intro matched t restOut h
    rw [extractLoop] at h
    simp only [List.isEmpty_nil, Bool.not_true, Bool.false_eq_true, if_false] at h
    by_cases hsc : c.score < SCORE_THRESHOLD
    · rw [if_pos hsc] at h
      exact absurd h (by simp)
    · rw [if_neg hsc] at h
      have hok : SCORE_THRESHOLD ≤ c.score := not_lt.mp hsc
      revert h
      repeat' split
      all_goals intro h
      · obtain ⟨d, hd, hprop⟩ := ih matched t restOut h
        exact ⟨d, List.mem_cons_of_mem c hd, hprop⟩
      · obtain ⟨d, hd, hprop⟩ := ih matched t restOut h
        exact ⟨d, List.mem_cons_of_mem c hd, hprop⟩
      · obtain ⟨d, hd, hprop⟩ := ih matched t restOut h
        exact ⟨d, List.mem_cons_of_mem c hd, hprop⟩
      · obtain ⟨d, hd, hprop⟩ := ih matched t restOut h
        exact ⟨d, List.mem_cons_of_mem c hd, hprop⟩
      · obtain ⟨d, hd, hprop⟩ := ih matched t restOut h
        exact ⟨d, List.mem_cons_of_mem c hd, hprop⟩
      · rw [List.nil_append] at h
        injection h with h1 h2
        subst h1
        exact ⟨c, List.mem_cons_self c rest, rfl, rfl, hok⟩
      · rw [List.nil_append] at h
        have hh := congrArg List.head? h
        rw [extractLoop_cons_head fieldsOf target fu conf oracles rest] at hh
        simp only [List.head?_cons] at hh
        injection hh with h1
        subst h1
        exact ⟨c, List.mem_cons_self c rest, rfl, rfl, hok⟩

/-- Template 1's single field row, carrying code A. -/
def fldA : FieldRec := ⟨some (str "A"), str "LabelA", none, 0⟩

/-- Template 2's single field row, carrying code C. -/
def fldC : FieldRec := ⟨some (str "C"), str "LabelC", none, 0⟩

/-- The scenario's template-field table. -/
def fieldsOfS : ℕ → List FieldRec := fun t => if t = 1 then [fldA] else [fldC]

/-- The scenario's successful extraction responses per template. -/
def respFor (t : ℕ) : Response :=
  ⟨200, none, none, none,
    [(if t = 1 then str "A" else str "C", .jstr (if t = 1 then str "val" else str "w"))],
    none⟩

/-- The scenario's extraction-API oracles (always succeed, first attempt). -/
def oraclesS : ℕ → ℕ → ApiOutcome := fun t _ => .resp (respFor t)

/-- The scenario's target code set {A, B, C}. -/
def targetS : Finset Str := {str "A", str "B", str "C"}

/-- The claim's candidates: score 0.5 covering {A, B}, then score 0.04
(below the gap-fill threshold 0.05) covering {C}. -/
def candsS : List Candidate :=
  [⟨1, str "T1", 1 / 2, {str "A", str "B"}⟩, ⟨2, str "T2", 1 / 25, {str "C"}⟩]

/-- Like `candsS` but with the second candidate at 0.1: above the gap-fill
threshold yet below the primary threshold. -/
def candsS2 : List Candidate :=
  [⟨1, str "T1", 1 / 2, {str "A", str "B"}⟩, ⟨2, str "T2", 1 / 10, {str "C"}⟩]

/-- The extracted first template of the scenario. -/
def tOut1 : TemplateOut := ⟨1, str "T1", [(str "A", ⟨str "val", none, none⟩)]⟩

/-- The extracted second template of the `candsS2` scenario. -/
def tOut2 : TemplateOut := ⟨2, str "T2", [(str "C", ⟨str "w", none, none⟩)]⟩

/-- C5: (a) the first template `extract_fields_for_templates` accepts always
comes from a candidate whose score clears the primary threshold 0.3; (b) in
the claim's scenario — candidates of score 0.5 covering {A, B} and score 0.04
covering {C} against target {A, B, C} — exactly the first template is
extracted and the loop ends normally with {A, B, C} never fully covered;
(c) once one template is accepted, a later candidate is held only to the
gap-fill threshold 0.05: a score-0.1 second candidate is accepted. -/
theorem C5_two_threshold_extraction :
    (∀ (fieldsOf : ℕ → List FieldRec) (target : Finset Str) (fu : Str)
        (conf : Option ℚ) (oracles : ℕ → ℕ → ApiOutcome) (cands : List Candidate)
        (t : TemplateOut) (restOut : List TemplateOut),
        extractFieldsForTemplates cands target fieldsOf fu conf oracles = t :: restOut →
        ∃ c ∈ cands, c.id = t.templateId ∧ c.name = t.templateName ∧
          SCORE_THRESHOLD ≤ c.score) ∧
    extractFieldsForTemplates candsS targetS fieldsOfS (str "u") none oraclesS = [tOut1] ∧
    extractFieldsForTemplates candsS2 targetS fieldsOfS (str "u") none oraclesS =
      [tOut1, tOut2] := by
  refine ⟨?_, by decide, by decide⟩
  intro fieldsOf target fu conf oracles cands t restOut h
  exact extractLoop_head_primary fieldsOf target fu conf oracles cands ∅ t restOut h

/-- Witness for C5: the accepted template of the scenario indeed stems from
the score-0.5 candidate, which clears the primary threshold. -/
theorem C5_two_threshold_extraction_witness :
    ∃ c ∈ candsS, c.id = tOut1.templateId ∧ c.name = tOut1.templateName ∧
      SCORE_THRESHOLD ≤ c.score :=
  C5_two_threshold_extraction.1 fieldsOfS targetS (str "u") none oraclesS candsS
    tOut1 [] (by decide)

end ExtendAI
